import Mathlib

/-!
Verification of the ESP32 flash target driver
(`src/espflash/src/targets/flash_target/esp32.rs`).

The driver is embedded shallowly: each of the three operations (`begin`,
`write_segment`, `finish`) is a pure Lean function that returns the list of
observable events it performs on the connection (wire commands with their
timeout scopes, progress-callback invocations, resets) together with its
`Result`.  The external collaborators (connection, compression codec, chip
capability provider) are modelled at their interface boundary: the connection
is an oracle assigning a success/failure outcome to each issued command, and
the codec is a pair of functions (whole-input compressor, cumulative
decompressed-output length of a streaming decompressor fed a given prefix).
-/

/-- Chip identities. Modelled from the spec: the `Chip` enumeration lives
outside the shown source ("a small closed enumeration"); the driver source
matches on `Esp32c3`, `Esp32s3`, compares against `Esp32`, and treats all
other variants uniformly. -/
inductive Chip
  | Esp32
  | Esp32c2
  | Esp32c3
  | Esp32s2
  | Esp32s3
  deriving DecidableEq

/-- Errors surfaced by the connection collaborator (§7 of the spec:
transport/IO failure, command timeout, device-reported protocol failure). -/
inductive Error
  | timeout
  | protocol
  | io
  deriving DecidableEq

/-- `SpiAttachParams` is an opaque payload passed through to the attach
command; modelled as a bare number. -/
abbrev SpiAttachParams : Type := Nat

/-- The wire commands the driver issues, with exactly the fields the source
supplies (`Command::SpiAttach`, `Command::SpiAttachStub`, `Command::WriteReg`,
`Command::FlashDeflateBegin`, `Command::FlashDeflateData`,
`Command::FlashDeflateEnd`). -/
inductive Command
  | spiAttach (spiParams : SpiAttachParams)
  | spiAttachStub (spiParams : SpiAttachParams)
  | writeReg (address : Nat) (value : Nat) (mask : Option Nat)
  | flashDeflateBegin (size blocks blockSize offset : Nat) (supportsEncryption : Bool)
  | flashDeflateData (sequence padTo padByte : Nat) (data : List Nat)
  | flashDeflateEnd (reboot : Bool)
  deriving DecidableEq

/-- Command types whose timeouts the driver requests
(`CommandType::SpiAttach`, `CommandType::FlashDeflateBegin`,
`CommandType::FlashDeflateData`, `CommandType::FlashDeflateEnd`). -/
inductive CommandType
  | spiAttach
  | flashDeflateBegin
  | flashDeflateData
  | flashDeflateEnd
  deriving DecidableEq

/-- The timeout a `with_timeout` scope was opened with: either the command
type's fixed timeout (`CommandType::timeout()`) or a size-scaled one
(`CommandType::timeout_for_size(size)`). -/
inductive ScopedTimeout
  | fixed (c : CommandType)
  | forSize (c : CommandType) (size : Nat)
  deriving DecidableEq

/-- One observable step of the driver.  A `cmd` event records the command
together with the timeout scope it was issued under (`none` when the source
calls `connection.command` directly, outside any `with_timeout`). -/
inductive Event
  | cmd (timeoutScope : Option ScopedTimeout) (c : Command)
  | progress (current total : Nat)
  | reset
  deriving DecidableEq

/-- The connection collaborator, modelled at its interface boundary: the
outcome of the `k`-th command issued during one driver operation, the result
of `get_usb_pid`, and the outcome of `reset`. -/
structure Conn where
  usbPid : Except Error Nat
  results : List (Option Error)
  resetResult : Option Error

/-- Outcome of the `k`-th issued command; positions beyond the supplied list
succeed. -/
def runCmd (conn : Conn) (k : Nat) : Option Error :=
  conn.results.getD k none

/-- `connection::USB_SERIAL_JTAG_PID`.  Modelled from the spec: the constant
lives in the connection module outside the shown source; only equality with
`get_usb_pid`'s answer matters to the driver. -/
def USB_SERIAL_JTAG_PID : Nat := 0x1001

/-- `flasher::FLASH_SECTOR_SIZE`.  Modelled from the spec: the constant lives
outside the shown source; the spec's worked example fixes it at 4096. -/
def FLASH_SECTOR_SIZE : Nat := 0x1000

/-- The compression codec collaborator (flate2's `ZlibEncoder` at
`Compression::best()` and streaming `ZlibDecoder`), modelled at its interface
boundary: `compress` is the whole-payload compressor, and `decompLen l` is the
cumulative output length (`decoder.get_ref().len()`) of one streaming
decompressor after it has been fed the byte prefix `l` and flushed. -/
structure Codec where
  compress : List Nat → List Nat
  decompLen : List Nat → Nat

/-- The driver's construction-time state (`Esp32Target`). -/
structure Esp32Target where
  chip : Chip
  spiAttachParams : SpiAttachParams
  useStub : Bool

/-- The three watchdog-disable register writes `begin` performs for a chip
with the RTC-watchdog quirk: unlock magic to the write-protect register, zero
to the watchdog-enable register, zero back to the write-protect register.
Each is issued by `connection.command` directly (no `with_timeout` wrapper in
the source); they occupy command positions 1, 2, 3 (position 0 is the attach
command). -/
def wdtDisableWrites (conn : Conn) (wpReg wdtReg : Nat) : List Event × Except Error Unit :=
  let e1 := Event.cmd none (Command.writeReg wpReg 0x50D83AA1 none)
  match runCmd conn 1 with
  | some err => ([e1], Except.error err)
  | none =>
    let e2 := Event.cmd none (Command.writeReg wdtReg 0 none)
    match runCmd conn 2 with
    | some err => ([e1, e2], Except.error err)
    | none =>
      let e3 := Event.cmd none (Command.writeReg wpReg 0 none)
      match runCmd conn 3 with
      | some err => ([e1, e2, e3], Except.error err)
      | none => ([e1, e2, e3], Except.ok ())

/-- `Esp32Target::begin`: SPI-attach (stub or ROM variant) under the attach
timeout, then — when the host-side USB PID is the USB-serial-JTAG PID — the
chip-specific watchdog-disable write sequence. -/
def Esp32Target.begin (t : Esp32Target) (conn : Conn) : List Event × Except Error Unit :=
  let attachCmd := if t.useStub then Command.spiAttachStub t.spiAttachParams
                   else Command.spiAttach t.spiAttachParams
  let e0 := Event.cmd (some (ScopedTimeout.fixed CommandType.spiAttach)) attachCmd
  match runCmd conn 0 with
  | some err => ([e0], Except.error err)
  | none =>
    match conn.usbPid with
    | Except.error err => ([e0], Except.error err)
    | Except.ok pid =>
      if pid = USB_SERIAL_JTAG_PID then
        match t.chip with
        | Chip.Esp32c3 =>
          let (evs, res) := wdtDisableWrites conn 0x600080a8 0x60008090
          (e0 :: evs, res)
        | Chip.Esp32s3 =>
          let (evs, res) := wdtDisableWrites conn 0x600080b0 0x60008098
          (e0 :: evs, res)
        | _ => ([e0], Except.ok ())
      else ([e0], Except.ok ())

/-- `slice::chunks(n)` with explicit fuel (the fuel is the list length, which
bounds the number of chunks). -/
def chunksOfFuel (n : Nat) : Nat → List Nat → List (List Nat)
  | _, [] => []
  | 0, _ :: _ => []
  | fuel + 1, x :: xs => (x :: xs).take n :: chunksOfFuel n fuel ((x :: xs).drop n)

/-- `compressed.chunks(flash_write_size)`: consecutive chunks of at most `n`
bytes, in original order, last chunk possibly shorter. -/
def chunksOf (n : Nat) (l : List Nat) : List (List Nat) :=
  chunksOfFuel n l.length l

/-- The chunk loop of `write_segment` (step 7 of §4.2): for the remaining
chunks, starting at sequence index `i`, with `fed` the bytes already written
into the persistent decoder and `decodedSize` the source's running
`decoded_size` variable.  The chunk at sequence index `i` occupies command
position `i + 1` (position 0 is the deflate-begin command). -/
def writeChunks (codec : Codec) (conn : Conn) (numChunks : Nat) (hasCb : Bool) :
    List (List Nat) → Nat → List Nat → Nat → List Event × Except Error Unit
  | [], _, _, _ => ([], Except.ok ())
  | block :: rest, i, fed, decodedSize =>
    let fed2 := fed ++ block
    let size := codec.decompLen fed2 - decodedSize
    let ev := Event.cmd (some (ScopedTimeout.forSize CommandType.flashDeflateData size))
      (Command.flashDeflateData i 0 0xff block)
    match runCmd conn (i + 1) with
    | some err => ([ev], Except.error err)
    | none =>
      let progressEvs := if hasCb then [Event.progress (i + 1) numChunks] else []
      let (evs, res) := writeChunks codec conn numChunks hasCb rest (i + 1) fed2 (codec.decompLen fed2)
      (ev :: (progressEvs ++ evs), res)

/-- `Esp32Target::write_segment`: compress the whole segment, issue
deflate-begin under an erase-size-scaled timeout, then stream the compressed
chunks, each under a timeout scaled by its decompressed contribution,
invoking the progress callback after each successful chunk.
`flashWriteSize` is the chip capability provider's answer
(`target.flash_write_size(connection)`); `hasCb` records whether a progress
callback was supplied. -/
def Esp32Target.writeSegment (codec : Codec) (t : Esp32Target) (flashWriteSize : Nat)
    (conn : Conn) (addr : Nat) (data : List Nat) (hasCb : Bool) :
    List Event × Except Error Unit :=
  let compressed := codec.compress data
  let blockCount := (compressed.length + flashWriteSize - 1) / flashWriteSize
  let eraseCount := (data.length + FLASH_SECTOR_SIZE - 1) / FLASH_SECTOR_SIZE
  let eraseSize := eraseCount * FLASH_SECTOR_SIZE
  let beginEv := Event.cmd (some (ScopedTimeout.forSize CommandType.flashDeflateBegin eraseSize))
    (Command.flashDeflateBegin data.length blockCount flashWriteSize addr
      ((t.chip != Chip.Esp32) && !t.useStub))
  match runCmd conn 0 with
  | some err => ([beginEv], Except.error err)
  | none =>
    let chunks := chunksOf flashWriteSize compressed
    let (evs, res) := writeChunks codec conn chunks.length hasCb chunks 0 [] 0
    (beginEv :: evs, res)

/-- `Esp32Target::finish`: deflate-end (wire reboot flag hard-coded `false`)
under the end timeout, then — only when the caller asked for a reboot — the
connection's `reset` primitive. -/
def Esp32Target.finish (conn : Conn) (reboot : Bool) : List Event × Except Error Unit :=
  let e := Event.cmd (some (ScopedTimeout.fixed CommandType.flashDeflateEnd))
    (Command.flashDeflateEnd false)
  match runCmd conn 0 with
  | some err => ([e], Except.error err)
  | none =>
    if reboot then
      match conn.resetResult with
      | some err => ([e, Event.reset], Except.error err)
      | none => ([e, Event.reset], Except.ok ())
    else ([e], Except.ok ())

/-! ### Trace observers -/

/-- The deflate-data commands of a trace: timeout scope, sequence index and
chunk payload, in issue order. -/
def dataInfo : Event → Option (Option ScopedTimeout × Nat × List Nat)
  | Event.cmd ts (Command.flashDeflateData seq _ _ d) => some (ts, seq, d)
  | _ => none

def dataInfos (evs : List Event) : List (Option ScopedTimeout × Nat × List Nat) :=
  evs.filterMap dataInfo

/-- Sequence indices of the deflate-data commands, in issue order. -/
def dataSeqs (evs : List Event) : List Nat :=
  (dataInfos evs).map (fun p => p.2.1)

/-- Chunk payloads of the deflate-data commands, in issue order. -/
def dataPayloads (evs : List Event) : List (List Nat) :=
  (dataInfos evs).map (fun p => p.2.2)

/-- Timeout scopes of the deflate-data commands, in issue order. -/
def dataTimeouts (evs : List Event) : List (Option ScopedTimeout) :=
  (dataInfos evs).map (fun p => p.1)

/-- The size argument of a deflate-data timeout scope. -/
def timeoutSizeOfInfo : Option ScopedTimeout × Nat × List Nat → Option Nat
  | (some (ScopedTimeout.forSize CommandType.flashDeflateData s), _, _) => some s
  | _ => none

/-- The size arguments of the deflate-data timeout scopes, in issue order. -/
def dataTimeoutSizes (evs : List Event) : List Nat :=
  (dataInfos evs).filterMap timeoutSizeOfInfo

/-- Progress-callback invocations of a trace, in order. -/
def progressPairs (evs : List Event) : List (Nat × Nat) :=
  evs.filterMap fun e =>
    match e with
    | Event.progress a b => some (a, b)
    | _ => none

/-- Register writes of a trace as (address, value) pairs, in issue order. -/
def writeRegPairs (evs : List Event) : List (Nat × Nat) :=
  evs.filterMap fun e =>
    match e with
    | Event.cmd _ (Command.writeReg a v _) => some (a, v)
    | _ => none

/-- The size the deflate-begin command's timeout scope was computed from. -/
def beginTimeoutSize (evs : List Event) : Option Nat :=
  (evs.filterMap fun e =>
    match e with
    | Event.cmd (some (ScopedTimeout.forSize CommandType.flashDeflateBegin s)) _ => some s
    | _ => none).head?

/-- Commands issued outside any `with_timeout` scope. -/
def untimedCmds (evs : List Event) : List Command :=
  evs.filterMap fun e =>
    match e with
    | Event.cmd none c => some c
    | _ => none

/-! ### Properties of the chunk split -/

theorem chunksOfFuel_flatten (n : Nat) (hn : 0 < n) :
    ∀ fuel l, l.length ≤ fuel → (chunksOfFuel n fuel l).flatten = l := by
  intro fuel
  induction fuel with
  | zero =>
    intro l hl
    match l with
    | [] => rfl
  | succ fuel ih =>
    intro l hl
    match l with
    | [] => rfl
    | x :: xs =>
      have hdrop : ((x :: xs).drop n).length ≤ fuel := by
        simp only [List.length_drop, List.length_cons]
        simp only [List.length_cons] at hl
        omega
      simp only [chunksOfFuel, List.flatten_cons, ih _ hdrop, List.take_append_drop]

theorem chunksOf_flatten (n : Nat) (hn : 0 < n) (l : List Nat) :
    (chunksOf n l).flatten = l :=
  chunksOfFuel_flatten n hn l.length l (Nat.le_refl _)

theorem chunksOfFuel_length (n : Nat) (hn : 0 < n) :
    ∀ fuel l, l.length ≤ fuel →
      (chunksOfFuel n fuel l).length = (l.length + n - 1) / n := by
  intro fuel
  induction fuel with
  | zero =>
    intro l hl
    match l with
    | [] =>
      simp only [chunksOfFuel, List.length_nil]
      rw [Nat.div_eq_of_lt (by omega)]
  | succ fuel ih =>
    intro l hl
    match l with
    | [] =>
      simp only [chunksOfFuel, List.length_nil]
      rw [Nat.div_eq_of_lt (by omega)]
    | x :: xs =>
      have hdrop : ((x :: xs).drop n).length ≤ fuel := by
        simp only [List.length_drop, List.length_cons]
        simp only [List.length_cons] at hl
        omega
      simp only [chunksOfFuel, List.length_cons, ih _ hdrop, List.length_drop,
        List.length_cons]
      rcases Nat.lt_or_ge (xs.length + 1) n with hlt | hge
      · have h1 : xs.length + 1 - n = 0 := by omega
        have ha : (0 + n - 1) / n = 0 := Nat.div_eq_of_lt (by omega)
        have hb : (xs.length + 1 + n - 1) / n = 1 :=
          Nat.div_eq_of_lt_le (by omega) (by omega)
        rw [h1, ha, hb]
      · have h1 : xs.length + 1 - n + n - 1 = xs.length + 1 - 1 := by omega
        have h2 : xs.length + 1 + n - 1 = (xs.length + 1 - 1) + n := by omega
        rw [h1, h2, Nat.add_div_right _ hn]

theorem chunksOf_length (n : Nat) (hn : 0 < n) (l : List Nat) :
    (chunksOf n l).length = (l.length + n - 1) / n :=
  chunksOfFuel_length n hn l.length l (Nat.le_refl _)

theorem chunksOfFuel_mem_length (n : Nat) :
    ∀ fuel l, ∀ c ∈ chunksOfFuel n fuel l, c.length ≤ n := by
  intro fuel
  induction fuel with
  | zero =>
    intro l c hc
    match l with
    | [] => simp [chunksOfFuel] at hc
  | succ fuel ih =>
    intro l c hc
    match l with
    | [] => simp [chunksOfFuel] at hc
    | x :: xs =>
      simp only [chunksOfFuel, List.mem_cons] at hc
      rcases hc with h | h
      · subst h
        simp only [List.length_take, List.length_cons]
        omega
      · exact ih _ c h

theorem chunksOf_mem_length (n : Nat) (l : List Nat) :
    ∀ c ∈ chunksOf n l, c.length ≤ n :=
  chunksOfFuel_mem_length n l.length l

theorem chunksOfFuel_dropLast_length (n : Nat) (hn : 0 < n) :
    ∀ fuel l, l.length ≤ fuel →
      ∀ c ∈ (chunksOfFuel n fuel l).dropLast, c.length = n := by
  intro fuel
  induction fuel with
  | zero =>
    intro l hl c hc
    match l with
    | [] => simp [chunksOfFuel] at hc
  | succ fuel ih =>
    intro l hl c hc
    match l with
    | [] => simp [chunksOfFuel] at hc
    | x :: xs =>
      simp only [chunksOfFuel] at hc
      rcases hrest : chunksOfFuel n fuel ((x :: xs).drop n) with _ | ⟨r, rs⟩
      · rw [hrest] at hc
        simp at hc
      · rw [hrest, List.dropLast_cons_of_ne_nil (by simp), List.mem_cons] at hc
        have hdropne : (x :: xs).drop n ≠ [] := by
          intro hemp
          rw [hemp] at hrest
          cases fuel <;> simp [chunksOfFuel] at hrest
        have hlen : n < (x :: xs).length := by
          by_contra hcon
          exact hdropne (List.drop_eq_nil_of_le (by omega))
        rcases hc with h | h
        · subst h
          simp only [List.length_take, List.length_cons]
          simp only [List.length_cons] at hlen
          omega
        · have hdrop : ((x :: xs).drop n).length ≤ fuel := by
            simp only [List.length_drop, List.length_cons]
            simp only [List.length_cons] at hl
            omega
          have := ih _ hdrop c
          rw [hrest] at this
          exact this h

theorem chunksOf_dropLast_length (n : Nat) (hn : 0 < n) (l : List Nat) :
    ∀ c ∈ (chunksOf n l).dropLast, c.length = n :=
  chunksOfFuel_dropLast_length n hn l.length l (Nat.le_refl _)

/-! ### The chunk loop on the success path -/

/-- The event sequence §4.2 step 7 prescribes when every chunk command
succeeds: for each chunk, a deflate-data command under a timeout scaled by
the chunk's decompressed contribution, followed by the progress-callback
invocation `(index + 1, total)`. -/
def specChunkLoop (codec : Codec) (numChunks : Nat) (hasCb : Bool) :
    List (List Nat) → Nat → List Nat → Nat → List Event
  | [], _, _, _ => []
  | block :: rest, i, fed, decodedSize =>
    Event.cmd (some (ScopedTimeout.forSize CommandType.flashDeflateData
        (codec.decompLen (fed ++ block) - decodedSize)))
      (Command.flashDeflateData i 0 0xff block)
    :: ((if hasCb then [Event.progress (i + 1) numChunks] else [])
        ++ specChunkLoop codec numChunks hasCb rest (i + 1) (fed ++ block)
            (codec.decompLen (fed ++ block)))

theorem writeChunks_ok (codec : Codec) (conn : Conn) (n : Nat) (cb : Bool)
    (hok : ∀ k, runCmd conn k = none) :
    ∀ chunks i fed ds,
      writeChunks codec conn n cb chunks i fed ds
        = (specChunkLoop codec n cb chunks i fed ds, Except.ok ()) := by
  intro chunks
  induction chunks with
  | nil => intro i fed ds; rfl
  | cons block rest ih =>
    intro i fed ds
    simp only [writeChunks, specChunkLoop, hok (i + 1), ih]

theorem specChunkLoop_dataSeqs (codec : Codec) (n : Nat) (cb : Bool) :
    ∀ chunks i fed ds,
      dataSeqs (specChunkLoop codec n cb chunks i fed ds)
        = List.range' i chunks.length := by
  intro chunks
  induction chunks with
  | nil => intro i fed ds; rfl
  | cons block rest ih =>
    intro i fed ds
    cases cb <;>
      simp [specChunkLoop, dataSeqs, dataInfos, dataInfo, ih (i + 1),
        List.range'_succ, dataSeqs, dataInfos] <;>
      simpa [dataSeqs, dataInfos] using ih (i + 1) (fed ++ block) (codec.decompLen (fed ++ block))

theorem specChunkLoop_dataPayloads (codec : Codec) (n : Nat) (cb : Bool) :
    ∀ chunks i fed ds,
      dataPayloads (specChunkLoop codec n cb chunks i fed ds) = chunks := by
  intro chunks
  induction chunks with
  | nil => intro i fed ds; rfl
  | cons block rest ih =>
    intro i fed ds
    cases cb <;>
      simp [specChunkLoop, dataPayloads, dataInfos, dataInfo] <;>
      simpa [dataPayloads, dataInfos] using ih (i + 1) (fed ++ block) (codec.decompLen (fed ++ block))

theorem specChunkLoop_progressPairs (codec : Codec) (n : Nat) :
    ∀ chunks i fed ds,
      progressPairs (specChunkLoop codec n true chunks i fed ds)
        = (List.range' (i + 1) chunks.length).map (fun p => (p, n)) := by
  intro chunks
  induction chunks with
  | nil => intro i fed ds; rfl
  | cons block rest ih =>
    intro i fed ds
    simp [specChunkLoop, progressPairs, List.range'_succ]
    simpa [progressPairs] using ih (i + 1) (fed ++ block) (codec.decompLen (fed ++ block))

/-- The spec's per-chunk decompressed contribution (§4.2 step 7a): the
cumulative output length of one decompressor that has been fed every chunk up
to and including chunk `j` (on top of the already-fed prefix `fed`), minus
its cumulative output length before chunk `j`. -/
def prefixContrib (codec : Codec) (fed : List Nat) (chunks : List (List Nat)) (j : Nat) : Nat :=
  codec.decompLen (fed ++ (chunks.take (j + 1)).flatten)
    - codec.decompLen (fed ++ (chunks.take j).flatten)

theorem specChunkLoop_dataTimeouts (codec : Codec) (n : Nat) (cb : Bool) :
    ∀ chunks (i : Nat) fed,
      dataTimeouts (specChunkLoop codec n cb chunks i fed (codec.decompLen fed))
        = (List.range chunks.length).map (fun j =>
            some (ScopedTimeout.forSize CommandType.flashDeflateData
              (prefixContrib codec fed chunks j))) := by
  intro chunks
  induction chunks with
  | nil => intro i fed; rfl
  | cons block rest ih =>
    intro i fed
    have htail := ih (i + 1) (fed ++ block)
    cases cb <;>
      simp_all [specChunkLoop, dataTimeouts, dataInfos, dataInfo, prefixContrib,
        List.range_succ_eq_map, List.map_map, List.take_succ_cons,
        List.append_assoc, Function.comp]

theorem specChunkLoop_sizes_sum (codec : Codec) (n : Nat) (cb : Bool)
    (hmono : ∀ l extra, codec.decompLen l ≤ codec.decompLen (l ++ extra)) :
    ∀ chunks (i : Nat) fed ds, ds = codec.decompLen fed →
      (dataTimeoutSizes (specChunkLoop codec n cb chunks i fed ds)).sum
        = codec.decompLen (fed ++ chunks.flatten) - ds := by
  intro chunks
  induction chunks with
  | nil =>
    intro i fed ds hds
    subst hds
    simp [specChunkLoop, dataTimeoutSizes, dataInfos]
  | cons block rest ih =>
    intro i fed ds hds
    subst hds
    have htail := ih (i + 1) (fed ++ block) (codec.decompLen (fed ++ block)) rfl
    simp only [dataTimeoutSizes, dataInfos] at htail ⊢
    simp only [List.append_assoc] at htail
    have h1 : codec.decompLen fed ≤ codec.decompLen (fed ++ block) := hmono fed block
    have h2 : codec.decompLen (fed ++ block)
        ≤ codec.decompLen (fed ++ (block ++ rest.flatten)) := by
      simpa [List.append_assoc] using hmono (fed ++ block) rest.flatten
    cases cb <;>
      · simp [specChunkLoop, dataInfo, timeoutSizeOfInfo, List.filterMap_cons,
          List.filterMap_append, htail]
        omega

/-! ### The chunk loop when a chunk command fails -/

theorem writeChunks_fail (codec : Codec) (conn : Conn) (n : Nat) :
    ∀ chunks (i : Nat) fed ds (k : Nat) err,
      (∀ j, j < k → runCmd conn (i + j + 1) = none) →
      runCmd conn (i + k + 1) = some err →
      k < chunks.length →
      (writeChunks codec conn n true chunks i fed ds).2 = Except.error err
      ∧ dataSeqs (writeChunks codec conn n true chunks i fed ds).1 = List.range' i (k + 1)
      ∧ progressPairs (writeChunks codec conn n true chunks i fed ds).1
          = (List.range' (i + 1) k).map (fun p => (p, n)) := by
  intro chunks
  induction chunks with
  | nil =>
    intro i fed ds k err hpre hfail hk
    exact absurd hk (by simp)
  | cons block rest ih =>
    intro i fed ds k err hpre hfail hk
    match k with
    | 0 =>
      have h : runCmd conn (i + 1) = some err := by simpa using hfail
      simp [writeChunks, h, dataSeqs, dataInfos, dataInfo, progressPairs]
    | k + 1 =>
      have h0 : runCmd conn (i + 1) = none := by simpa using hpre 0 (by omega)
      have hpre2 : ∀ j, j < k → runCmd conn ((i + 1) + j + 1) = none := by
        intro j hj
        have harg : (i + 1) + j + 1 = i + (j + 1) + 1 := by omega
        rw [harg]
        exact hpre (j + 1) (by omega)
      have hfail2 : runCmd conn ((i + 1) + k + 1) = some err := by
        have harg : (i + 1) + k + 1 = i + (k + 1) + 1 := by omega
        rw [harg]
        exact hfail
      have hk2 : k < rest.length := by
        simp only [List.length_cons] at hk
        omega
      obtain ⟨hres, hseq, hprog⟩ :=
        ih (i + 1) (fed ++ block) (codec.decompLen (fed ++ block)) k err hpre2 hfail2 hk2
      rcases hrec : writeChunks codec conn n true rest (i + 1) (fed ++ block)
          (codec.decompLen (fed ++ block)) with ⟨evs, res⟩
      rw [hrec] at hres hseq hprog
      simp only at hres hseq hprog
      simp only [dataSeqs, dataInfos, progressPairs] at hseq hprog
      refine ⟨?_, ?_, ?_⟩ <;>
        simp [writeChunks, h0, hrec, dataSeqs, dataInfos, dataInfo, progressPairs,
          List.range'_succ, hres, hseq, hprog]

/-! ### Observer helpers and the full `write_segment` trace on success -/

theorem dataInfos_cons_none (e : Event) (evs : List Event) (h : dataInfo e = none) :
    dataInfos (e :: evs) = dataInfos evs := by
  simp [dataInfos, List.filterMap_cons, h]

theorem dataSeqs_cons_none (e : Event) (evs : List Event) (h : dataInfo e = none) :
    dataSeqs (e :: evs) = dataSeqs evs := by
  simp [dataSeqs, dataInfos_cons_none e evs h]

theorem dataPayloads_cons_none (e : Event) (evs : List Event) (h : dataInfo e = none) :
    dataPayloads (e :: evs) = dataPayloads evs := by
  simp [dataPayloads, dataInfos_cons_none e evs h]

theorem dataTimeouts_cons_none (e : Event) (evs : List Event) (h : dataInfo e = none) :
    dataTimeouts (e :: evs) = dataTimeouts evs := by
  simp [dataTimeouts, dataInfos_cons_none e evs h]

theorem dataTimeoutSizes_cons_none (e : Event) (evs : List Event) (h : dataInfo e = none) :
    dataTimeoutSizes (e :: evs) = dataTimeoutSizes evs := by
  simp [dataTimeoutSizes, dataInfos_cons_none e evs h]

theorem progressPairs_cons_cmd (ts : Option ScopedTimeout) (c : Command) (evs : List Event) :
    progressPairs (Event.cmd ts c :: evs) = progressPairs evs := by
  simp [progressPairs, List.filterMap_cons]

theorem dataSeqs_cons_deflateBegin (ts : Option ScopedTimeout) (a b c d : Nat) (e : Bool)
    (evs : List Event) :
    dataSeqs (Event.cmd ts (Command.flashDeflateBegin a b c d e) :: evs) = dataSeqs evs :=
  dataSeqs_cons_none _ _ rfl

theorem dataPayloads_cons_deflateBegin (ts : Option ScopedTimeout) (a b c d : Nat) (e : Bool)
    (evs : List Event) :
    dataPayloads (Event.cmd ts (Command.flashDeflateBegin a b c d e) :: evs)
      = dataPayloads evs :=
  dataPayloads_cons_none _ _ rfl

theorem dataTimeouts_cons_deflateBegin (ts : Option ScopedTimeout) (a b c d : Nat) (e : Bool)
    (evs : List Event) :
    dataTimeouts (Event.cmd ts (Command.flashDeflateBegin a b c d e) :: evs)
      = dataTimeouts evs :=
  dataTimeouts_cons_none _ _ rfl

theorem dataTimeoutSizes_cons_deflateBegin (ts : Option ScopedTimeout) (a b c d : Nat) (e : Bool)
    (evs : List Event) :
    dataTimeoutSizes (Event.cmd ts (Command.flashDeflateBegin a b c d e) :: evs)
      = dataTimeoutSizes evs :=
  dataTimeoutSizes_cons_none _ _ rfl

/-- On an all-success connection, `write_segment` emits the deflate-begin
command followed by the §4.2 chunk loop, and returns `Ok`. -/
theorem writeSegment_eq_ok (codec : Codec) (t : Esp32Target) (fws : Nat) (conn : Conn)
    (addr : Nat) (data : List Nat) (cb : Bool) (hok : ∀ k, runCmd conn k = none) :
    Esp32Target.writeSegment codec t fws conn addr data cb
      = (Event.cmd (some (ScopedTimeout.forSize CommandType.flashDeflateBegin
            ((data.length + FLASH_SECTOR_SIZE - 1) / FLASH_SECTOR_SIZE * FLASH_SECTOR_SIZE)))
          (Command.flashDeflateBegin data.length
            (((codec.compress data).length + fws - 1) / fws) fws addr
            ((t.chip != Chip.Esp32) && !t.useStub))
        :: specChunkLoop codec (chunksOf fws (codec.compress data)).length cb
            (chunksOf fws (codec.compress data)) 0 [] 0,
        Except.ok ()) := by
  simp [Esp32Target.writeSegment, hok 0, writeChunks_ok codec conn _ cb hok]

/-! ### Concrete instances used to exercise the theorems -/

/-- A codec whose compressed stream is the payload itself and whose
decompressor has emitted exactly the bytes it was fed. -/
def idCodec : Codec := ⟨fun l => l, fun l => l.length⟩

/-- A connection on which every command succeeds, `get_usb_pid` answers the
USB-serial-JTAG PID, and `reset` succeeds. -/
def connOk : Conn := ⟨Except.ok USB_SERIAL_JTAG_PID, [], none⟩

theorem connOk_runCmd (k : Nat) : runCmd connOk k = none := rfl

/-- A connection whose `get_usb_pid` answers a PID other than the
USB-serial-JTAG one. -/
def connOtherPid : Conn := ⟨Except.ok 0x6010, [], none⟩

/-- An `Esp32c3` driver instance. -/
def tgtC3 : Esp32Target := ⟨Chip.Esp32c3, 0, true⟩

/-- An `Esp32s3` driver instance. -/
def tgtS3 : Esp32Target := ⟨Chip.Esp32s3, 0, false⟩

/-- An `Esp32` (base variant) driver instance. -/
def tgtBase : Esp32Target := ⟨Chip.Esp32, 0, false⟩

/-! ### The claims -/

/-- C1: for every segment, `write_segment` splits the compressed byte
sequence into consecutive chunks in original order (their concatenation is
the compressed sequence), with `block_count = ceil(len(compressed)/flash_write_size)`
chunks; every chunk except the last has length exactly `flash_write_size` and
the last has length at most `flash_write_size`; and the chunks are sent with
sequence indices exactly `0, 1, ..., block_count - 1`, strictly increasing,
with no gaps or repeats, carrying the chunks in order. -/
theorem c1_write_segment_chunking (codec : Codec) (t : Esp32Target) (fws : Nat)
    (conn : Conn) (addr : Nat) (data : List Nat) (cb : Bool)
    (hpos : 0 < fws) (hok : ∀ k, runCmd conn k = none) :
    (chunksOf fws (codec.compress data)).length
        = ((codec.compress data).length + fws - 1) / fws
    ∧ (chunksOf fws (codec.compress data)).flatten = codec.compress data
    ∧ (∀ c ∈ (chunksOf fws (codec.compress data)).dropLast, c.length = fws)
    ∧ (∀ c ∈ chunksOf fws (codec.compress data), c.length ≤ fws)
    ∧ dataPayloads (Esp32Target.writeSegment codec t fws conn addr data cb).1
        = chunksOf fws (codec.compress data)
    ∧ dataSeqs (Esp32Target.writeSegment codec t fws conn addr data cb).1
        = List.range (((codec.compress data).length + fws - 1) / fws) := by
  refine ⟨chunksOf_length fws hpos _, chunksOf_flatten fws hpos _,
    chunksOf_dropLast_length fws hpos _, chunksOf_mem_length fws _, ?_, ?_⟩
  · rw [writeSegment_eq_ok codec t fws conn addr data cb hok,
      dataPayloads_cons_deflateBegin]
    exact specChunkLoop_dataPayloads codec _ cb _ 0 [] 0
  · rw [writeSegment_eq_ok codec t fws conn addr data cb hok,
      dataSeqs_cons_deflateBegin,
      specChunkLoop_dataSeqs codec _ cb _ 0 [] 0,
      chunksOf_length fws hpos, ← List.range_eq_range']

theorem c1_witness :
    dataPayloads (Esp32Target.writeSegment idCodec tgtC3 2 connOk 0x1000
        [1, 2, 3, 4, 5] true).1 = [[1, 2], [3, 4], [5]]
    ∧ dataSeqs (Esp32Target.writeSegment idCodec tgtC3 2 connOk 0x1000
        [1, 2, 3, 4, 5] true).1 = [0, 1, 2] := by
  have h := c1_write_segment_chunking idCodec tgtC3 2 connOk 0x1000 [1, 2, 3, 4, 5] true
    (by decide) connOk_runCmd
  exact ⟨by rw [h.2.2.2.2.1]; rfl, by rw [h.2.2.2.2.2]; rfl⟩

/-- C2: for every segment, the sum over all chunks of the per-chunk
decompressed-length contribution (the streaming decompressor's cumulative
output length after feeding the chunk minus its cumulative output length
before) equals the original segment length — the compressed, chunked stream
round-trips to the original length.  The codec is quantified over its
interface contract: a fresh decompressor has emitted nothing, its cumulative
output length is monotone in the input fed, and decompressing the whole
compressed stream yields the original length. -/
theorem c2_contribution_sum (codec : Codec) (t : Esp32Target) (fws : Nat)
    (conn : Conn) (addr : Nat) (data : List Nat) (cb : Bool)
    (hpos : 0 < fws) (hok : ∀ k, runCmd conn k = none)
    (hnil : codec.decompLen [] = 0)
    (hmono : ∀ l extra, codec.decompLen l ≤ codec.decompLen (l ++ extra))
    (hround : codec.decompLen (codec.compress data) = data.length) :
    (dataTimeoutSizes (Esp32Target.writeSegment codec t fws conn addr data cb).1).sum
      = data.length := by
  rw [writeSegment_eq_ok codec t fws conn addr data cb hok,
    dataTimeoutSizes_cons_deflateBegin,
    specChunkLoop_sizes_sum codec _ cb hmono _ 0 [] 0 hnil.symm]
  simp [chunksOf_flatten fws hpos, hround]

theorem c2_witness :
    (dataTimeoutSizes (Esp32Target.writeSegment idCodec tgtC3 2 connOk 0x1000
        [1, 2, 3, 4, 5] true).1).sum = 5 := by
  have h := c2_contribution_sum idCodec tgtC3 2 connOk 0x1000 [1, 2, 3, 4, 5] true
    (by decide) connOk_runCmd rfl (fun l extra => by simp [idCodec]) rfl
  simpa using h

/-- A codec whose decompressor reports no output at all: its cumulative
output length violates the round-trip contract. -/
def badCodec : Codec := ⟨fun l => l, fun _ => 0⟩

/-- C3 counterexample: `write_segment` returns success even though the
decompressor's cumulative output length (0, the sum of all per-chunk
contributions) differs from the original segment length (1): the source
performs no round-trip length check. -/
theorem c3_counterexample :
    (Esp32Target.writeSegment badCodec tgtC3 1 connOk 0x1000 [1] false).2 = Except.ok ()
    ∧ (dataTimeoutSizes
        (Esp32Target.writeSegment badCodec tgtC3 1 connOk 0x1000 [1] false).1).sum ≠ 1 :=
  ⟨rfl, by decide⟩

/-- C3 (amended): `write_segment` performs no verification of the
decompressor's cumulative output length.  Whenever the deflate-begin command
and every chunk command succeed it returns success, for every codec — in
particular also when the cumulative decompressed length differs from
`len(segment.data)`; a mismatch is silently ignored, not surfaced as an
error. -/
theorem c3_no_length_check (codec : Codec) (t : Esp32Target) (fws : Nat)
    (conn : Conn) (addr : Nat) (data : List Nat) (cb : Bool)
    (hok : ∀ k, runCmd conn k = none) :
    (Esp32Target.writeSegment codec t fws conn addr data cb).2 = Except.ok () := by
  rw [writeSegment_eq_ok codec t fws conn addr data cb hok]

theorem c3_witness :
    (Esp32Target.writeSegment badCodec tgtS3 1 connOk 0x2000 [7, 8] false).2
      = Except.ok () :=
  c3_no_length_check badCodec tgtS3 1 connOk 0x2000 [7, 8] false connOk_runCmd

/-- The first event of every `write_segment` trace is the deflate-begin
command, issued under a timeout computed from the erase size. -/
theorem writeSegment_head (codec : Codec) (t : Esp32Target) (fws : Nat)
    (conn : Conn) (addr : Nat) (data : List Nat) (cb : Bool) :
    (Esp32Target.writeSegment codec t fws conn addr data cb).1.head?
      = some (Event.cmd (some (ScopedTimeout.forSize CommandType.flashDeflateBegin
            ((data.length + FLASH_SECTOR_SIZE - 1) / FLASH_SECTOR_SIZE * FLASH_SECTOR_SIZE)))
          (Command.flashDeflateBegin data.length
            (((codec.compress data).length + fws - 1) / fws) fws addr
            ((t.chip != Chip.Esp32) && !t.useStub))) := by
  cases h : runCmd conn 0
  · rcases hw : writeChunks codec conn (chunksOf fws (codec.compress data)).length cb
        (chunksOf fws (codec.compress data)) 0 [] 0 with ⟨evs, res⟩
    simp [Esp32Target.writeSegment, h, hw]
  · simp [Esp32Target.writeSegment, h]

/-- C4: the deflate-begin command carries `size = len(segment.data)`,
`blocks = ceil(len(compressed)/flash_write_size)`,
`block_size = flash_write_size`, `offset = segment.addr`, and an
encryption-support flag that is true exactly when the chip is not the base
`Esp32` variant and the stub loader is not in use. -/
theorem c4_deflate_begin_fields (codec : Codec) (t : Esp32Target) (fws : Nat)
    (conn : Conn) (addr : Nat) (data : List Nat) (cb : Bool) :
    (Esp32Target.writeSegment codec t fws conn addr data cb).1.head?
      = some (Event.cmd (some (ScopedTimeout.forSize CommandType.flashDeflateBegin
            ((data.length + FLASH_SECTOR_SIZE - 1) / FLASH_SECTOR_SIZE * FLASH_SECTOR_SIZE)))
          (Command.flashDeflateBegin data.length
            (((codec.compress data).length + fws - 1) / fws) fws addr
            ((t.chip != Chip.Esp32) && !t.useStub)))
    ∧ (((t.chip != Chip.Esp32) && !t.useStub) = true
        ↔ (t.chip ≠ Chip.Esp32 ∧ t.useStub = false)) := by
  refine ⟨writeSegment_head codec t fws conn addr data cb, ?_⟩
  simp [Bool.and_eq_true, bne_iff_ne, Bool.not_eq_true']

theorem c4_witness :
    (Esp32Target.writeSegment idCodec tgtBase 4 connOk 0x1000
        (List.replicate 10 171) false).1.head?
      = some (Event.cmd (some (ScopedTimeout.forSize CommandType.flashDeflateBegin 4096))
          (Command.flashDeflateBegin 10 3 4 0x1000 false)) := by
  have h := (c4_deflate_begin_fields idCodec tgtBase 4 connOk 0x1000
    (List.replicate 10 171) false).1
  rw [h]
  decide

/-- C5: on a successful segment write, the timeout of each deflate-data
command is `timeout_for_size` of that chunk's decompressed contribution
(the cumulative output length of the one decompressor that persists across
all chunks of the segment, measured after the chunk minus before it), not
the compressed chunk's own byte length. -/
theorem c5_timeout_from_contribution (codec : Codec) (t : Esp32Target) (fws : Nat)
    (conn : Conn) (addr : Nat) (data : List Nat) (cb : Bool)
    (hok : ∀ k, runCmd conn k = none) (hnil : codec.decompLen [] = 0) :
    dataTimeouts (Esp32Target.writeSegment codec t fws conn addr data cb).1
      = (List.range (chunksOf fws (codec.compress data)).length).map (fun j =>
          some (ScopedTimeout.forSize CommandType.flashDeflateData
            (prefixContrib codec [] (chunksOf fws (codec.compress data)) j))) := by
  rw [writeSegment_eq_ok codec t fws conn addr data cb hok, dataTimeouts_cons_deflateBegin]
  have h0 : (0 : Nat) = codec.decompLen [] := hnil.symm
  rw [h0]
  exact specChunkLoop_dataTimeouts codec _ cb _ (codec.decompLen []) []

theorem c5_witness :
    dataTimeouts (Esp32Target.writeSegment idCodec tgtC3 2 connOk 0x1000
        [1, 2, 3, 4, 5] true).1
      = [some (ScopedTimeout.forSize CommandType.flashDeflateData 2),
         some (ScopedTimeout.forSize CommandType.flashDeflateData 2),
         some (ScopedTimeout.forSize CommandType.flashDeflateData 1)] := by
  have h := c5_timeout_from_contribution idCodec tgtC3 2 connOk 0x1000 [1, 2, 3, 4, 5] true
    connOk_runCmd rfl
  rw [h]
  rfl

/-- C6: `erase_size = erase_count * FLASH_SECTOR_SIZE` with
`erase_count = ceil(len(segment.data)/FLASH_SECTOR_SIZE)` is the size the
deflate-begin timeout is computed from; it is a multiple of the sector size
and at least `len(segment.data)`. -/
theorem c6_erase_size (codec : Codec) (t : Esp32Target) (fws : Nat)
    (conn : Conn) (addr : Nat) (data : List Nat) (cb : Bool) :
    beginTimeoutSize (Esp32Target.writeSegment codec t fws conn addr data cb).1
      = some ((data.length + FLASH_SECTOR_SIZE - 1) / FLASH_SECTOR_SIZE * FLASH_SECTOR_SIZE)
    ∧ ((data.length + FLASH_SECTOR_SIZE - 1) / FLASH_SECTOR_SIZE * FLASH_SECTOR_SIZE)
        % FLASH_SECTOR_SIZE = 0
    ∧ data.length
        ≤ (data.length + FLASH_SECTOR_SIZE - 1) / FLASH_SECTOR_SIZE * FLASH_SECTOR_SIZE := by
  refine ⟨?_, ?_, ?_⟩
  · cases h : runCmd conn 0
    · rcases hw : writeChunks codec conn (chunksOf fws (codec.compress data)).length cb
          (chunksOf fws (codec.compress data)) 0 [] 0 with ⟨evs, res⟩
      simp [Esp32Target.writeSegment, h, hw, beginTimeoutSize, List.filterMap_cons]
    · simp [Esp32Target.writeSegment, h, beginTimeoutSize, List.filterMap_cons]
  · simp only [FLASH_SECTOR_SIZE]
    omega
  · simp only [FLASH_SECTOR_SIZE]
    omega

theorem c6_witness :
    beginTimeoutSize (Esp32Target.writeSegment idCodec tgtC3 2 connOtherPid 0x1000
        [9, 9, 9, 9, 9] false).1 = some 4096 := by
  have h := (c6_erase_size idCodec tgtC3 2 connOtherPid 0x1000 [9, 9, 9, 9, 9] false).1
  rw [h]
  decide

/-- C7: in `begin`, when the host-side USB PID is the USB-serial-JTAG PID:
for `Esp32c3` and `Esp32s3` exactly three register writes are issued in
order — unlock magic to the write-protect register, zero to the
watchdog-enable register, zero back to the write-protect register — with the
per-variant register addresses; every other chip variant issues no register
write; and a failure on any of the three writes aborts `begin` with that
error. -/
theorem c7_watchdog_quirk (t : Esp32Target) (conn : Conn)
    (hpid : conn.usbPid = Except.ok USB_SERIAL_JTAG_PID)
    (h0 : runCmd conn 0 = none) :
    (t.chip = Chip.Esp32c3 → (∀ k, runCmd conn k = none) →
        writeRegPairs (t.begin conn).1
          = [(0x600080a8, 0x50D83AA1), (0x60008090, 0), (0x600080a8, 0)]
        ∧ (t.begin conn).2 = Except.ok ())
    ∧ (t.chip = Chip.Esp32s3 → (∀ k, runCmd conn k = none) →
        writeRegPairs (t.begin conn).1
          = [(0x600080b0, 0x50D83AA1), (0x60008098, 0), (0x600080b0, 0)]
        ∧ (t.begin conn).2 = Except.ok ())
    ∧ (t.chip ≠ Chip.Esp32c3 → t.chip ≠ Chip.Esp32s3 →
        writeRegPairs (t.begin conn).1 = [])
    ∧ (∀ j err, j < 3 → (∀ i, i ≤ j → runCmd conn i = none) →
        runCmd conn (j + 1) = some err →
        (t.chip = Chip.Esp32c3 ∨ t.chip = Chip.Esp32s3) →
        (t.begin conn).2 = Except.error err
        ∧ (writeRegPairs (t.begin conn).1).length = j + 1) := by
  obtain ⟨chip, sp, stub⟩ := t
  refine ⟨?_, ?_, ?_, ?_⟩
  · intro hc hok
    cases hc
    cases stub <;>
      simp [Esp32Target.begin, h0, hpid, wdtDisableWrites, hok 1, hok 2, hok 3,
        writeRegPairs, List.filterMap_cons]
  · intro hc hok
    cases hc
    cases stub <;>
      simp [Esp32Target.begin, h0, hpid, wdtDisableWrites, hok 1, hok 2, hok 3,
        writeRegPairs, List.filterMap_cons]
  · intro hc3 hs3
    cases chip <;> cases stub <;>
      simp_all [Esp32Target.begin, h0, hpid, writeRegPairs, List.filterMap_cons]
  · intro j err hj hpre hfail hquirk
    rcases hquirk with hc | hc <;> cases hc <;> interval_cases j <;> cases stub <;>
      simp_all [Esp32Target.begin, wdtDisableWrites, writeRegPairs, List.filterMap_cons,
        hpre 1, hpre 2]

theorem c7_witness :
    writeRegPairs (Esp32Target.begin tgtC3 connOk).1
      = [(0x600080a8, 0x50D83AA1), (0x60008090, 0), (0x600080a8, 0)] :=
  ((c7_watchdog_quirk tgtC3 connOk rfl rfl).1 rfl connOk_runCmd).1

/-- C8: `finish` always sends the wire-level reboot flag as `false` in the
deflate-end command; it invokes the connection's reset primitive if and only
if the caller passed `reboot = true`; and when the deflate-end command fails
it returns that error without invoking reset. -/
theorem c8_finish_reboot (conn : Conn) (reboot : Bool) :
    (Esp32Target.finish conn reboot).1.head?
      = some (Event.cmd (some (ScopedTimeout.fixed CommandType.flashDeflateEnd))
          (Command.flashDeflateEnd false))
    ∧ (runCmd conn 0 = none →
        (Event.reset ∈ (Esp32Target.finish conn reboot).1 ↔ reboot = true))
    ∧ (∀ err, runCmd conn 0 = some err →
        (Esp32Target.finish conn reboot).2 = Except.error err
        ∧ Event.reset ∉ (Esp32Target.finish conn reboot).1) := by
  refine ⟨?_, ?_, ?_⟩
  · cases h : runCmd conn 0 <;> cases reboot <;> cases hr : conn.resetResult <;>
      simp [Esp32Target.finish, h, hr]
  · intro h
    cases reboot <;> cases hr : conn.resetResult <;> simp [Esp32Target.finish, h, hr]
  · intro err h
    cases reboot <;> simp [Esp32Target.finish, h]

theorem c8_witness :
    (Esp32Target.finish connOk true).1.head?
      = some (Event.cmd (some (ScopedTimeout.fixed CommandType.flashDeflateEnd))
          (Command.flashDeflateEnd false))
    ∧ Event.reset ∈ (Esp32Target.finish connOk true).1 := by
  have h := c8_finish_reboot connOk true
  exact ⟨h.1, (h.2.1 rfl).mpr rfl⟩

/-- C9: if the deflate-data command for chunk `k` fails, `write_segment`
aborts immediately and propagates that error — the data commands issued are
exactly those for chunks `0..k` and the progress callback fires only for
chunks `0..k-1`; when every command succeeds, the trace is the deflate-begin
command followed by the §4.2 loop (each chunk's command immediately followed
by its callback invocation), so the callback fires exactly once per chunk
with `(index + 1, total)`, in increasing order, only after that chunk's
command succeeded. -/
theorem c9_abort_and_progress (codec : Codec) (t : Esp32Target) (fws : Nat)
    (conn : Conn) (addr : Nat) (data : List Nat) :
    (∀ k err, runCmd conn 0 = none →
        (∀ j, j < k → runCmd conn (j + 1) = none) →
        runCmd conn (k + 1) = some err →
        k < (chunksOf fws (codec.compress data)).length →
        (Esp32Target.writeSegment codec t fws conn addr data true).2 = Except.error err
        ∧ dataSeqs (Esp32Target.writeSegment codec t fws conn addr data true).1
            = List.range (k + 1)
        ∧ progressPairs (Esp32Target.writeSegment codec t fws conn addr data true).1
            = (List.range k).map
                (fun j => (j + 1, (chunksOf fws (codec.compress data)).length)))
    ∧ ((∀ k, runCmd conn k = none) →
        (Esp32Target.writeSegment codec t fws conn addr data true).1
          = Event.cmd (some (ScopedTimeout.forSize CommandType.flashDeflateBegin
                ((data.length + FLASH_SECTOR_SIZE - 1) / FLASH_SECTOR_SIZE
                  * FLASH_SECTOR_SIZE)))
              (Command.flashDeflateBegin data.length
                (((codec.compress data).length + fws - 1) / fws) fws addr
                ((t.chip != Chip.Esp32) && !t.useStub))
            :: specChunkLoop codec (chunksOf fws (codec.compress data)).length true
                (chunksOf fws (codec.compress data)) 0 [] 0
        ∧ progressPairs (Esp32Target.writeSegment codec t fws conn addr data true).1
            = (List.range (chunksOf fws (codec.compress data)).length).map
                (fun j => (j + 1, (chunksOf fws (codec.compress data)).length))) := by
  constructor
  · intro k err h0 hpre hfail hk
    obtain ⟨hres, hseq, hprog⟩ :=
      writeChunks_fail codec conn (chunksOf fws (codec.compress data)).length
        (chunksOf fws (codec.compress data)) 0 [] 0 k err
        (by intro j hj; simpa using hpre j hj) (by simpa using hfail) hk
    rcases hw : writeChunks codec conn (chunksOf fws (codec.compress data)).length true
        (chunksOf fws (codec.compress data)) 0 [] 0 with ⟨evs, res⟩
    rw [hw] at hres hseq hprog
    simp only at hres hseq hprog
    have hws : Esp32Target.writeSegment codec t fws conn addr data true
        = (Event.cmd (some (ScopedTimeout.forSize CommandType.flashDeflateBegin
              ((data.length + FLASH_SECTOR_SIZE - 1) / FLASH_SECTOR_SIZE
                * FLASH_SECTOR_SIZE)))
            (Command.flashDeflateBegin data.length
              (((codec.compress data).length + fws - 1) / fws) fws addr
              ((t.chip != Chip.Esp32) && !t.useStub)) :: evs, res) := by
      simp [Esp32Target.writeSegment, h0, hw]
    refine ⟨?_, ?_, ?_⟩
    · rw [hws]
      exact hres
    · rw [hws]
      simp only [dataSeqs_cons_deflateBegin]
      rw [List.range_eq_range']
      exact hseq
    · rw [hws]
      simp only [progressPairs_cons_cmd]
      rw [hprog]
      simp [List.range'_eq_map_range, List.map_map, Function.comp, Nat.add_comm]
  · intro hok
    have h := writeSegment_eq_ok codec t fws conn addr data true hok
    refine ⟨by rw [h], ?_⟩
    rw [h, progressPairs_cons_cmd,
      specChunkLoop_progressPairs codec _ _ 0 [] 0]
    simp [List.range'_eq_map_range, List.map_map, Function.comp, Nat.add_comm]

/-- A connection on which the attach/deflate-begin command and the first two
chunk commands succeed, but the command at position 3 (chunk index 2) times
out. -/
def connFailChunk2 : Conn :=
  ⟨Except.ok USB_SERIAL_JTAG_PID, [none, none, none, some Error.timeout], none⟩

theorem c9_witness :
    (Esp32Target.writeSegment idCodec tgtC3 1 connFailChunk2 0x1000 [1, 2, 3, 4, 5] true).2
      = Except.error Error.timeout
    ∧ dataSeqs (Esp32Target.writeSegment idCodec tgtC3 1 connFailChunk2 0x1000
        [1, 2, 3, 4, 5] true).1 = [0, 1, 2]
    ∧ progressPairs (Esp32Target.writeSegment idCodec tgtC3 1 connFailChunk2 0x1000
        [1, 2, 3, 4, 5] true).1 = [(1, 5), (2, 5)] := by
  have h := (c9_abort_and_progress idCodec tgtC3 1 connFailChunk2 0x1000 [1, 2, 3, 4, 5]).1
    2 Error.timeout rfl (by intro j hj; interval_cases j <;> rfl) rfl (by decide)
  exact ⟨h.1, by rw [h.2.1]; rfl, by rw [h.2.2]; rfl⟩

/-- Whether a command is a register write. -/
def isWriteReg : Command → Bool
  | Command.writeReg _ _ _ => true
  | _ => false

theorem untimedCmds_cons_timed (ts : ScopedTimeout) (c : Command) (evs : List Event) :
    untimedCmds (Event.cmd (some ts) c :: evs) = untimedCmds evs := by
  simp [untimedCmds, List.filterMap_cons]

theorem wdtDisableWrites_untimed_all (conn : Conn) (wp wdt : Nat) :
    (untimedCmds (wdtDisableWrites conn wp wdt).1).all isWriteReg = true := by
  unfold wdtDisableWrites
  cases h1 : runCmd conn 1 <;> cases h2 : runCmd conn 2 <;> cases h3 : runCmd conn 3 <;>
    simp [untimedCmds, isWriteReg]

theorem writeChunks_untimed (codec : Codec) (conn : Conn) (n : Nat) (cb : Bool) :
    ∀ chunks (i : Nat) fed ds,
      untimedCmds (writeChunks codec conn n cb chunks i fed ds).1 = [] := by
  intro chunks
  induction chunks with
  | nil => intro i fed ds; rfl
  | cons block rest ih =>
    intro i fed ds
    cases h : runCmd conn (i + 1)
    · rcases hw : writeChunks codec conn n cb rest (i + 1) (fed ++ block)
          (codec.decompLen (fed ++ block)) with ⟨evs, res⟩
      have htail := ih (i + 1) (fed ++ block) (codec.decompLen (fed ++ block))
      rw [hw] at htail
      simp only at htail
      simp only [untimedCmds] at htail
      cases cb <;>
        simp [writeChunks, h, hw, untimedCmds, List.filterMap_cons,
          List.filterMap_append, htail]
    · simp [writeChunks, h, untimedCmds]

/-- C10 counterexample: in `begin` on a USB-serial-JTAG connection with an
`Esp32c3`, the three watchdog register-write commands are issued by
`connection.command` directly, outside any `with_timeout` scope — so not
every wire command is issued inside a scoped-timeout wrapper. -/
theorem c10_counterexample :
    untimedCmds (Esp32Target.begin tgtC3 connOk).1
      = [Command.writeReg 0x600080a8 0x50D83AA1 none,
         Command.writeReg 0x60008090 0 none,
         Command.writeReg 0x600080a8 0 none]
    ∧ untimedCmds (Esp32Target.begin tgtC3 connOk).1 ≠ [] := by
  refine ⟨rfl, by decide⟩

/-- C10 (amended): every wire command of `write_segment` and `finish`, and
the SPI-attach command of `begin`, is issued inside a `with_timeout` scope
whose deadline is computed before the command is issued; the only commands
issued outside a scoped-timeout wrapper are the watchdog register writes of
`begin`. -/
theorem c10_scoped_timeouts (t : Esp32Target) (conn conn2 conn3 : Conn) (codec : Codec)
    (fws addr : Nat) (data : List Nat) (cb reboot : Bool) :
    (untimedCmds (Esp32Target.begin t conn).1).all isWriteReg = true
    ∧ untimedCmds (Esp32Target.writeSegment codec t fws conn2 addr data cb).1 = []
    ∧ untimedCmds (Esp32Target.finish conn3 reboot).1 = [] := by
  obtain ⟨chip, sp, stub⟩ := t
  refine ⟨?_, ?_, ?_⟩
  · cases h0 : runCmd conn 0
    case none =>
      cases hp : conn.usbPid
      case error e =>
        cases stub <;> simp [Esp32Target.begin, h0, hp, untimedCmds]
      case ok pid =>
        by_cases hpid : pid = USB_SERIAL_JTAG_PID
        · cases chip with
          | Esp32c3 =>
            rcases hw : wdtDisableWrites conn 0x600080a8 0x60008090 with ⟨evs, res⟩
            have hall := wdtDisableWrites_untimed_all conn 0x600080a8 0x60008090
            rw [hw] at hall
            simp only at hall
            cases stub <;>
              simp [Esp32Target.begin, h0, hp, hpid, hw, untimedCmds_cons_timed, hall,
                untimedCmds, List.filterMap_cons] <;>
              simpa [untimedCmds] using hall
          | Esp32s3 =>
            rcases hw : wdtDisableWrites conn 0x600080b0 0x60008098 with ⟨evs, res⟩
            have hall := wdtDisableWrites_untimed_all conn 0x600080b0 0x60008098
            rw [hw] at hall
            simp only at hall
            cases stub <;>
              simp [Esp32Target.begin, h0, hp, hpid, hw, untimedCmds_cons_timed, hall,
                untimedCmds, List.filterMap_cons] <;>
              simpa [untimedCmds] using hall
          | Esp32 => cases stub <;> simp [Esp32Target.begin, h0, hp, hpid, untimedCmds]
          | Esp32c2 => cases stub <;> simp [Esp32Target.begin, h0, hp, hpid, untimedCmds]
          | Esp32s2 => cases stub <;> simp [Esp32Target.begin, h0, hp, hpid, untimedCmds]
        · cases chip <;> cases stub <;> simp [Esp32Target.begin, h0, hp, hpid, untimedCmds]
    case some err =>
      cases stub <;> simp [Esp32Target.begin, h0, untimedCmds]
  · cases h0 : runCmd conn2 0
    case none =>
      rcases hw : writeChunks codec conn2 (chunksOf fws (codec.compress data)).length cb
          (chunksOf fws (codec.compress data)) 0 [] 0 with ⟨evs, res⟩
      have htail := writeChunks_untimed codec conn2 (chunksOf fws (codec.compress data)).length
        cb (chunksOf fws (codec.compress data)) 0 [] 0
      rw [hw] at htail
      simp only at htail
      simp only [untimedCmds] at htail
      simp [Esp32Target.writeSegment, h0, hw, untimedCmds, List.filterMap_cons, htail]
    case some err =>
      simp [Esp32Target.writeSegment, h0, untimedCmds]
  · cases h : runCmd conn3 0 <;> cases reboot <;> cases hr : conn3.resetResult <;>
      simp [Esp32Target.finish, h, hr, untimedCmds]
